import Mathlib

/-!
Shallow embedding of the corsairlink-rs USB HID protocol core
(src/protocol/usbhid.rs, src/backends/usbhid.rs, src/devices/cooler/h110i.rs).

Bytes are modelled as `Nat` (with `% 256` where Rust's `u8` arithmetic wraps),
buffers as `List Nat`, Rust `Result` as an explicit result type, and Rust
panics (out-of-bounds slice indexing, `unwrap` on `None`) as a distinct
`crash` outcome.  Rust `String` values are modelled by their UTF-8 byte
vectors (`List Nat`).
-/

namespace CorsairLink

/-- Result of running a piece of Rust code: `ok` (the happy path),
`err` (an `Err(...)` value of the crate's error type, identified by its
message string), or `crash` (a Rust panic, e.g. out-of-bounds indexing). -/
inductive RRes (α : Type) where
  | ok : α → RRes α
  | err : String → RRes α
  | crash : RRes α
deriving DecidableEq, Repr

/-- Map a function over the `ok` payload of an `RRes`. -/
def RRes.map {α β : Type} (f : α → β) : RRes α → RRes β
  | .ok a => .ok (f a)
  | .err e => .err e
  | .crash => .crash

/-- Model of `buf[i] = v` on a mutable byte slice: `none` models the
out-of-bounds panic. -/
def setByte (buf : List Nat) (i v : Nat) : Option (List Nat) :=
  if i < buf.length then some (buf.set i v) else none

/-- Overwrite `buf[lo .. lo + bs.length]` with `bs` (caller guarantees the
range is in bounds). -/
def splice (buf : List Nat) (lo : Nat) (bs : List Nat) : List Nat :=
  buf.take lo ++ bs ++ buf.drop (lo + bs.length)

/-- Contents of `buf[lo..hi]` assuming the bounds are valid. -/
def sliceList (buf : List Nat) (lo hi : Nat) : List Nat :=
  (buf.drop lo).take (hi - lo)

/-- Model of the Rust slice expression `&buf[lo..hi]`: `none` models the
out-of-range panic. -/
def slice? (buf : List Nat) (lo hi : Nat) : Option (List Nat) :=
  if lo ≤ hi ∧ hi ≤ buf.length then some (sliceList buf lo hi) else none

/-- Model of the Rust slice expression `&buf[lo..]`. -/
def sliceFrom? (buf : List Nat) (lo : Nat) : Option (List Nat) :=
  if lo ≤ buf.length then some (buf.drop lo) else none

namespace usbhid

/-- The `Register` trait of `protocol/usbhid.rs`: a wire identifier
(`Into<u8>`) plus a byte width (`size`). -/
class Register (R : Type) where
  size : R → Nat
  toU8 : R → Nat

/-- The `Value` trait of `protocol/usbhid.rs`.  `decode` consumes response
bytes (and may fail or panic); `encode` yields the bytes the value writes
into the front of the operand slice, or `none` when the value is not
encodable for its register (Rust returns `Option<usize>` after writing
`buf[0..n]`; we carry the written bytes directly). -/
class Value (R : Type) (V : Type) [Register R] where
  decode : R → List Nat → RRes V
  encode : V → Option (List Nat)

/-- The six wire opcodes of `protocol/usbhid.rs`. -/
inductive Opcode where
  | WriteByte | ReadByte | WriteWord | ReadWord | WriteBlock | ReadBlock
deriving DecidableEq, Repr

/-- The `#[repr(u8)]` byte values of the opcodes. -/
def Opcode.toU8 : Opcode → Nat
  | .WriteByte => 0x06
  | .ReadByte => 0x07
  | .WriteWord => 0x08
  | .ReadWord => 0x09
  | .WriteBlock => 0x0a
  | .ReadBlock => 0x0b

/-- `Command<R,V>`: `Read(register)` or `Write(register, value)`. -/
inductive Command (R V : Type) where
  | Read : R → Command R V
  | Write : R → V → Command R V
deriving DecidableEq, Repr

variable {R V : Type} [Register R] [Value R V]

/-- `Command::opcode`: selects the opcode from the operation kind and the
register's byte width. -/
def Command.opcode : Command R V → Opcode
  | .Read register =>
    match Register.size register with
    | 1 => .ReadByte
    | 2 => .ReadWord
    | _ => .ReadBlock
  | .Write register _ =>
    match Register.size register with
    | 1 => .WriteByte
    | 2 => .WriteWord
    | _ => .WriteBlock

/-- `Command::register`. -/
def Command.register : Command R V → R
  | .Read register => register
  | .Write register _ => register

/-- Model of `value.encode(&mut buf[lo..hi])`: creating the sub-slice panics
when the range is out of bounds, the value's bytes are written at its front
(panicking when they overflow it), and a `None` from the value leaves the
buffer untouched (the Rust caller ignores the returned `Option`). -/
def writeEnc (buf : List Nat) (lo hi : Nat) (enc : Option (List Nat)) :
    Option (List Nat) :=
  if lo ≤ hi ∧ hi ≤ buf.length then
    match enc with
    | none => some buf
    | some bs => if bs.length ≤ hi - lo then some (splice buf lo bs) else none
  else none

/-- `Command::encode`: writes the opcode byte, the register-id byte, and the
operand bytes into `buf` (the command's slice of the packet), returning the
updated slice contents together with the `Option<usize>` the Rust function
returns.  `none` from the whole function models a panic. -/
def Command.encode (c : Command R V) (buf : List Nat) :
    RRes (List Nat × Option Nat) :=
  match setByte buf 0 (Opcode.toU8 c.opcode) with
  | none => .crash
  | some b0 =>
    match setByte b0 1 (Register.toU8 c.register) with
    | none => .crash
    | some b1 =>
      match c with
      | .Read register =>
        match Command.opcode (.Read register : Command R V) with
        | .ReadByte => .ok (b1, some 2)
        | .ReadWord => .ok (b1, some 2)
        | .ReadBlock =>
          match setByte b1 2 (Register.size register % 256) with
          | none => .crash
          | some b2 => .ok (b2, some 3)
        | _ => .ok (b1, none)
      | .Write register value =>
        match Command.opcode (.Write register value : Command R V) with
        | .WriteByte =>
          match writeEnc b1 2 3 (@Value.encode R V _ _ value) with
          | none => .crash
          | some b2 => .ok (b2, some 3)
        | .WriteWord =>
          match writeEnc b1 2 4 (@Value.encode R V _ _ value) with
          | none => .crash
          | some b2 => .ok (b2, some 4)
        | .WriteBlock =>
          match setByte b1 2 (Register.size register % 256) with
          | none => .crash
          | some b2 =>
            match writeEnc b2 3 (3 + Register.size register)
                (@Value.encode R V _ _ value) with
            | none => .crash
            | some b3 => .ok (b3, some (2 + Register.size register))
        | _ => .ok (b1, none)

/-- `Command::len`: the number of bytes the command occupies on the wire. -/
def Command.len (c : Command R V) : Nat :=
  match c.opcode with
  | .ReadByte => 2
  | .ReadWord => 2
  | .ReadBlock => 3
  | .WriteByte => 3
  | .WriteWord => 4
  | .WriteBlock => 3 + Register.size c.register

/-- `PACKET_SIZE`. -/
def PACKET_SIZE : Nat := 64

/-- `FIRST_COMMAND_ID`. -/
def FIRST_COMMAND_ID : Nat := 20

/-- `TxPacket<R,V>`: a starting sequence id plus an ordered command list. -/
structure TxPacket (R V : Type) where
  first_command_id : Nat
  commands : List (Command R V)

/-- `TxPacket::len`: `fold(1, |sum, c| sum + c.len() + 1)`. -/
def TxPacket.len (p : TxPacket R V) : Nat :=
  p.commands.foldl (fun sum c => sum + c.len + 1) 1

/-- The loop body of `TxPacket::encode`: writes `buf[i] = command_id`, checks
`buf.get_mut(i+1 .. i+1+c.len())` (returning `Ok none` — Rust `None` — when
the check fails), encodes the command into that slice, and advances. -/
def encodeLoop (cs : List (Command R V)) (buf : List Nat) (i cid : Nat) :
    RRes (Option (List Nat)) :=
  match cs with
  | [] => .ok (some buf)
  | c :: rest =>
    match setByte buf i cid with
    | none => .crash
    | some buf1 =>
      if i + 1 + c.len ≤ buf1.length then
        match c.encode (sliceList buf1 (i + 1) (i + 1 + c.len)) with
        | .crash => .crash
        | .err e => .err e
        | .ok (bytes, _) =>
          encodeLoop rest (splice buf1 (i + 1) bytes) (i + 1 + c.len)
            ((cid + 1) % 256)
      else .ok none

/-- `TxPacket::encode`: allocates `vec![0; self.len()]`, writes
`buf[0] = len as u8 - 1` (wrapping `u8` arithmetic), then runs the loop from
offset 1 with the starting command id. -/
def TxPacket.encode (p : TxPacket R V) : RRes (Option (List Nat)) :=
  match setByte (List.replicate p.len 0) 0 ((p.len % 256 + 255) % 256) with
  | none => .crash
  | some buf => encodeLoop p.commands buf 1 p.first_command_id

/-- `RxCommand<R,V>`: a decoded `Read` carrying a value, or a `Write`
acknowledgement carrying only the register. -/
inductive RxCommand (R V : Type) where
  | Read : R → V → RxCommand R V
  | Write : R → RxCommand R V
deriving DecidableEq, Repr

/-- `RxCommand::decode_read`: selects the payload slice by register width
(width 1 → `data[0..1]`, width 2 → `data[0..2]`, otherwise an embedded
length byte `data[0]` must equal the width and the slice is
`data[1..len+2]`), then decodes it with the `Value` capability. -/
def RxCommand.decode_read (register : R) (data : List Nat) :
    RRes (RxCommand R V) :=
  let bufR : RRes (List Nat) :=
    match Register.size register with
    | 1 =>
      match slice? data 0 1 with
      | none => .crash
      | some b => .ok b
    | 2 =>
      match slice? data 0 2 with
      | none => .crash
      | some b => .ok b
    | len =>
      match data.get? 0 with
      | none => .crash
      | some d0 =>
        if len = d0 then
          match slice? data 1 (len + 2) with
          | none => .crash
          | some b => .ok b
        else .err "Invalid length byte for block read"
  match bufR with
  | .crash => .crash
  | .err e => .err e
  | .ok buf =>
    match Value.decode register buf with
    | .crash => .crash
    | .err e => .err e
    | .ok v => .ok (.Read register v)

/-- `RxCommand::len`: response bytes occupied past the echoed id. -/
def RxCommand.len : RxCommand R V → Nat
  | .Read register _ =>
    match Register.size register with
    | 1 => 2
    | 2 => 3
    | len => len + 2
  | .Write _ => 1

/-- One iteration's `let rxcommand = match c {...}` of `RxPacket::decode`:
a `Read` decodes from `&data[i + 2 ..]` (skipping the echoed id and one
further byte), a `Write` yields a bare acknowledgement. -/
def decodeStep (c : Command R V) (data : List Nat) (i : Nat) :
    RRes (RxCommand R V) :=
  match c with
  | .Read register =>
    match sliceFrom? data (i + 2) with
    | none => .crash
    | some d => RxCommand.decode_read register d
  | .Write register _ => .ok (.Write register)

/-- The loop of `RxPacket::decode`, carrying the Rust loop state: the list
built so far, the read cursor `i`, and the expected command id.  Checks
`data[i]` against the expected id, decodes the command's response, and
advances the cursor by `rxcommand.len() + 1`. -/
def decodeLoop (cs : List (Command R V)) (data : List Nat) (i cid : Nat) :
    RRes (List (RxCommand R V) × Nat × Nat) :=
  match cs with
  | [] => .ok ([], i, cid)
  | c :: rest =>
    match data.get? i with
    | none => .crash
    | some b =>
      if b ≠ cid then .err "Bad command ID"
      else
        match decodeStep c data i with
        | .crash => .crash
        | .err e => .err e
        | .ok rx =>
          match decodeLoop rest data (i + (rx.len + 1)) ((cid + 1) % 256) with
          | .crash => .crash
          | .err e => .err e
          | .ok (rxs, i2, cid2) => .ok (rx :: rxs, i2, cid2)

/-- `RxPacket::decode`: walks the originating `TxPacket`'s command list
against the response bytes from cursor 0 and the packet's first command
id. -/
def RxPacket.decode (tx : TxPacket R V) (data : List Nat) :
    RRes (List (RxCommand R V)) :=
  RRes.map (fun t => t.1) (decodeLoop tx.commands data 0 tx.first_command_id)

/-- `RxPacket::read_values`: the decoded `Read` values, in order, `Write`
acknowledgements omitted. -/
def read_values (rxs : List (RxCommand R V)) : List V :=
  rxs.filterMap fun rx =>
    match rx with
    | .Read _ value => some value
    | .Write _ => none

end usbhid

namespace backends

/-- The observable trace of one `Device::write_packet` exchange: how many
transport writes and reads were issued, which buffer reached the decoder,
and the decode result.  Transport reads are modelled as always succeeding
(the `k`-th read returns `readFn k`); a failing read would abort the
exchange immediately and is outside the claims about the retry count. -/
structure Exchange (R V : Type) where
  writeCount : Nat
  readCount : Nat
  decodedBuf : List Nat
  result : RRes (List (usbhid.RxCommand R V))
deriving DecidableEq

variable {R V : Type} [usbhid.Register R] [usbhid.Value R V]

/-- `Device::write_packet`: encode (`.unwrap()` panics on `None`), write the
request once, read; while the response's first byte differs from
`encoded[1]` (the first sequence id written), re-read, up to three reads in
total; then hand the final buffer to `RxPacket::decode` unconditionally. -/
def write_packet (tx : usbhid.TxPacket R V) (readFn : Nat → List Nat) :
    RRes (Exchange R V) :=
  match usbhid.TxPacket.encode tx with
  | .crash => .crash
  | .err e => .err e
  | .ok none => .crash
  | .ok (some encoded) =>
    match encoded.get? 1 with
    | none => .crash
    | some want =>
      let buf0 := readFn 0
      match buf0.get? 0 with
      | none => .crash
      | some b0 =>
        if b0 ≠ want then
          let buf1 := readFn 1
          match buf1.get? 0 with
          | none => .crash
          | some b1 =>
            if b1 ≠ want then
              let buf2 := readFn 2
              .ok ⟨1, 3, buf2, usbhid.RxPacket.decode tx buf2⟩
            else .ok ⟨1, 2, buf1, usbhid.RxPacket.decode tx buf1⟩
        else .ok ⟨1, 1, buf0, usbhid.RxPacket.decode tx buf0⟩

end backends

namespace h110i

/-- The `#[repr(u8)]` register catalog of `devices/cooler/h110i.rs`. -/
inductive Register where
  | DeviceId | FirmwareVersion | ProductName | Status
  | LedSelect | LedCount | LedMode | LedColor | LedCycleColors
  | TempSensorSelect | TempSensorCount | TempSensorValue | TempSensorLimit
  | FanSelect | FanCount | FanRPM
deriving DecidableEq, Repr

/-- The registers' wire identifiers (`Into<u8>` via `#[repr(u8)]`). -/
def Register.toU8 : Register → Nat
  | .DeviceId => 0x00
  | .FirmwareVersion => 0x01
  | .ProductName => 0x02
  | .Status => 0x03
  | .LedSelect => 0x04
  | .LedCount => 0x05
  | .LedMode => 0x06
  | .LedColor => 0x07
  | .LedCycleColors => 0x0b
  | .TempSensorSelect => 0x0c
  | .TempSensorCount => 0x0d
  | .TempSensorValue => 0x0e
  | .TempSensorLimit => 0x0f
  | .FanSelect => 0x10
  | .FanCount => 0x11
  | .FanRPM => 0x16

/-- The registers' byte widths (`impl usbhid::Register for Register`). -/
def Register.size : Register → Nat
  | .DeviceId => 1
  | .FirmwareVersion => 2
  | .ProductName => 8
  | .Status => 1
  | .LedSelect => 1
  | .LedCount => 1
  | .LedMode => 1
  | .LedColor => 3
  | .LedCycleColors => 12
  | .TempSensorSelect => 1
  | .TempSensorCount => 1
  | .TempSensorValue => 2
  | .TempSensorLimit => 2
  | .FanSelect => 1
  | .FanCount => 1
  | .FanRPM => 2

instance : usbhid.Register Register := ⟨Register.size, Register.toU8⟩

/-- `TempChannel`. -/
inductive TempChannel where
  | InternalSensor | Manual
deriving DecidableEq, Repr

/-- `TempChannel` as its `#[repr(u8)]` byte. -/
def TempChannel.toU8 : TempChannel → Nat
  | .InternalSensor => 0x0
  | .Manual => 0x7

/-- `TempChannel::decode`. -/
def TempChannel.decode (data : Nat) : RRes TempChannel :=
  match data with
  | 0x0 => .ok .InternalSensor
  | 0x7 => .ok .Manual
  | _ => .err "Invalid temperature channel for LED mode"

/-- `LedMode`. -/
inductive LedMode where
  | Static
  | TwoColorCycle : Nat → LedMode
  | FourColorCycle : Nat → LedMode
  | Temperature : TempChannel → LedMode
deriving DecidableEq, Repr

/-- `LedMode::decode`. -/
def LedMode.decode (data : Nat) : RRes LedMode :=
  match data &&& 0xf0 with
  | 0x00 => .ok .Static
  | 0x40 => .ok (.TwoColorCycle (data &&& 0x0f))
  | 0x80 => .ok (.FourColorCycle (data &&& 0x0f))
  | 0xC0 =>
    match TempChannel.decode (data &&& 0x0f) with
    | .ok c => .ok (.Temperature c)
    | .err e => .err e
    | .crash => .crash
  | _ => .err "Invalid LED mode byte"

/-- `LedMode::encode`. -/
def LedMode.encode : LedMode → Nat
  | .Static => 0x00
  | .TwoColorCycle speed => 0x40 ||| (speed &&& 0x0f)
  | .FourColorCycle speed => 0x80 ||| (speed &&& 0x0f)
  | .Temperature channel => 0xC0 ||| channel.toU8

/-- `RgbColor(u8, u8, u8)`. -/
structure RgbColor where
  red : Nat
  green : Nat
  blue : Nat
deriving DecidableEq, Repr

/-- `RegisterValue`: the typed contents of each register.  Rust `String`
fields are modelled by their UTF-8 byte vectors. -/
inductive RegisterValue where
  | DeviceId : Nat → RegisterValue
  | FirmwareVersion : List Nat → RegisterValue
  | ProductName : List Nat → RegisterValue
  | Status : Nat → RegisterValue
  | LedSelect : Nat → RegisterValue
  | LedCount : Nat → RegisterValue
  | LedMode : LedMode → RegisterValue
  | LedColor : RgbColor → RegisterValue
  | LedCycleColors : RgbColor → RgbColor → RgbColor → RgbColor → RegisterValue
  | TempSensorSelect : Nat → RegisterValue
  | TempSensorCount : Nat → RegisterValue
  | TempSensorValue : Nat → Nat → RegisterValue
  | TempSensorLimit : Nat → Nat → RegisterValue
  | FanSelect : Nat → RegisterValue
  | FanCount : Nat → RegisterValue
  | FanRPM : Nat → RegisterValue
deriving DecidableEq, Repr

/-- Lowercase-hex bytes of `format!("{:x}", n)`. -/
def hexBytes (n : Nat) : List Nat :=
  (Nat.toDigits 16 n).map Char.toNat

/-- Lowercase-hex bytes of `format!("{:02x}", n)` (zero-padded to width 2). -/
def hex02Bytes (n : Nat) : List Nat :=
  if n < 16 then 48 :: hexBytes n else hexBytes n

/-- `RegisterValue::decode_firmware_version`:
`format!("{:x}.{:x}.{:02x}", (hb & 0xf0) >> 4, hb & 0x0f, lb)` as UTF-8
bytes (46 is the dot). -/
def decode_firmware_version (lb hb : Nat) : List Nat :=
  hexBytes ((hb &&& 0xf0) >>> 4) ++ 46 :: hexBytes (hb &&& 0x0f)
    ++ 46 :: hex02Bytes lb

/-- UTF-8 validity of a byte sequence, as checked by `String::from_utf8`. -/
def utf8Valid : List Nat → Bool
  | [] => true
  | b :: rest =>
    if b < 0x80 then utf8Valid rest
    else if 0xC2 ≤ b ∧ b ≤ 0xDF then
      match rest with
      | c1 :: r => (0x80 ≤ c1 ∧ c1 < 0xC0) && utf8Valid r
      | [] => false
    else if 0xE0 ≤ b ∧ b ≤ 0xEF then
      match rest with
      | c1 :: c2 :: r =>
        (decide (0x80 ≤ c1 ∧ c1 < 0xC0) &&
          decide (0x80 ≤ c2 ∧ c2 < 0xC0) &&
          (decide (b ≠ 0xE0) || decide (0xA0 ≤ c1)) &&
          (decide (b ≠ 0xED) || decide (c1 < 0xA0))) && utf8Valid r
      | _ => false
    else if 0xF0 ≤ b ∧ b ≤ 0xF4 then
      match rest with
      | c1 :: c2 :: c3 :: r =>
        (decide (0x80 ≤ c1 ∧ c1 < 0xC0) &&
          decide (0x80 ≤ c2 ∧ c2 < 0xC0) &&
          decide (0x80 ≤ c3 ∧ c3 < 0xC0) &&
          (decide (b ≠ 0xF0) || decide (0x90 ≤ c1)) &&
          (decide (b ≠ 0xF4) || decide (c1 < 0x90))) && utf8Valid r
      | _ => false
    else false

/-- `String::from_utf8` on a byte vector: the bytes themselves on success,
an error (converted by `?` into the crate's error type) otherwise. -/
def string_from_utf8 (bs : List Nat) : RRes (List Nat) :=
  if utf8Valid bs then .ok bs else .err "invalid utf-8 sequence"

/-- `RegisterValue::decode` (`impl usbhid::Value<Register>`): per-register
typed decoding of the payload slice; list indexing that would panic in Rust
yields `crash`. -/
def RegisterValue.decode (register : Register) (data : List Nat) :
    RRes RegisterValue :=
  match register with
  | .DeviceId =>
    match data.get? 0 with
    | none => .crash
    | some d0 => .ok (.DeviceId d0)
  | .FirmwareVersion =>
    match data.get? 0, data.get? 1 with
    | some d0, some d1 => .ok (.FirmwareVersion (decode_firmware_version d0 d1))
    | _, _ => .crash
  | .ProductName =>
    match sliceFrom? data 1 with
    | none => .crash
    | some tail =>
      match tail.findIdx? (fun x => x = 0) with
      | some n =>
        match slice? data 1 (n + 1) with
        | none => .crash
        | some bs =>
          match string_from_utf8 bs with
          | .ok s => .ok (.ProductName s)
          | .err e => .err e
          | .crash => .crash
      | none => .err "No null byte found while parsing product name string"
  | .Status =>
    match data.get? 0 with
    | none => .crash
    | some d0 => .ok (.Status d0)
  | .LedSelect =>
    match data.get? 0 with
    | none => .crash
    | some d0 => .ok (.LedSelect d0)
  | .LedCount =>
    match data.get? 0 with
    | none => .crash
    | some d0 => .ok (.LedCount d0)
  | .LedMode =>
    match data.get? 0 with
    | none => .crash
    | some d0 =>
      match LedMode.decode d0 with
      | .ok m => .ok (.LedMode m)
      | .err e => .err e
      | .crash => .crash
  | .LedColor =>
    match data.get? 0, data.get? 1, data.get? 2 with
    | some d0, some d1, some d2 => .ok (.LedColor ⟨d0, d1, d2⟩)
    | _, _, _ => .crash
  | .LedCycleColors =>
    match data.get? 0, data.get? 1, data.get? 2, data.get? 3, data.get? 4,
        data.get? 5 with
    | some d0, some d1, some d2, some d3, some d4, some d5 =>
      match data.get? 6, data.get? 7, data.get? 8, data.get? 9, data.get? 10,
          data.get? 11 with
      | some d6, some d7, some d8, some d9, some d10, some d11 =>
        .ok (.LedCycleColors ⟨d0, d1, d2⟩ ⟨d3, d4, d5⟩ ⟨d6, d7, d8⟩
          ⟨d9, d10, d11⟩)
      | _, _, _, _, _, _ => .crash
    | _, _, _, _, _, _ => .crash
  | .TempSensorSelect =>
    match data.get? 0 with
    | none => .crash
    | some d0 => .ok (.TempSensorSelect d0)
  | .TempSensorCount =>
    match data.get? 0 with
    | none => .crash
    | some d0 => .ok (.TempSensorCount d0)
  | .TempSensorValue =>
    match data.get? 0, data.get? 1 with
    | some d0, some d1 => .ok (.TempSensorValue d0 d1)
    | _, _ => .crash
  | .TempSensorLimit =>
    match data.get? 0, data.get? 1 with
    | some d0, some d1 => .ok (.TempSensorLimit d0 d1)
    | _, _ => .crash
  | .FanSelect =>
    match data.get? 0 with
    | none => .crash
    | some d0 => .ok (.FanSelect d0)
  | .FanCount =>
    match data.get? 0 with
    | none => .crash
    | some d0 => .ok (.FanCount d0)
  | .FanRPM =>
    match slice? data 0 2 with
    | none => .crash
    | some bs =>
      match bs.get? 0, bs.get? 1 with
      | some b0, some b1 => .ok (.FanRPM (b0 + 256 * b1))
      | _, _ => .crash

/-- `RegisterValue::encode` (`impl usbhid::Value<Register>`): bytes written
for the encodable variants; `none` for all others. -/
def RegisterValue.encode : RegisterValue → Option (List Nat)
  | .LedSelect led => some [led]
  | .LedMode mode => some [mode.encode]
  | .LedCycleColors c0 c1 c2 c3 =>
    some [c0.red, c0.green, c0.blue, c1.red, c1.green, c1.blue,
      c2.red, c2.green, c2.blue, c3.red, c3.green, c3.blue]
  | .TempSensorSelect sensor => some [sensor]
  | .TempSensorLimit lb hb => some [lb, hb]
  | .FanSelect fan => some [fan]
  | _ => none

instance : usbhid.Value Register RegisterValue :=
  ⟨RegisterValue.decode, RegisterValue.encode⟩

end h110i

/-! Concrete packets used by the claims, over the H110i device instance. -/

/-- The spec's example packet: `[Read(DeviceId), Read(FirmwareVersion)]`
with starting sequence id 20. -/
def txExample : usbhid.TxPacket h110i.Register h110i.RegisterValue :=
  ⟨20, [.Read .DeviceId, .Read .FirmwareVersion]⟩

/-- The UTF-8 bytes of the firmware-version string `"0.3.01"` formatted from
the little-endian byte pair `(0x01, 0x03)`. -/
def fwBytes : List Nat := [48, 46, 51, 46, 48, 49]

/-- Length of the buffer produced by a successful `TxPacket::encode`. -/
def encodedLength (r : RRes (Option (List Nat))) : Option Nat :=
  match r with
  | .ok (some l) => some l.length
  | _ => none

/-- A batch of sixteen `Read(ProductName)` commands; its encoded length is
`1 + 16 * 4 = 65` bytes, exceeding the 64-byte report size. -/
def oversizedTx : usbhid.TxPacket h110i.Register h110i.RegisterValue :=
  ⟨20, List.replicate 16 (.Read .ProductName)⟩

/-- A `Write` whose value (`DeviceId`) is not encodable: `RegisterValue::encode`
returns `None` for it. -/
def badWrite : usbhid.Command h110i.Register h110i.RegisterValue :=
  .Write .LedSelect (.DeviceId 0x2a)

/-- Six `Read(ProductName)` commands: encoded request is 25 bytes, but
decoding consumes 11 response bytes per command. -/
def blockTx : usbhid.TxPacket h110i.Register h110i.RegisterValue :=
  ⟨20, List.replicate 6 (.Read .ProductName)⟩

/-- A 64-byte response whose echoed ids and block-length bytes all match
`blockTx`, driving the decoder's cursor past the end of the buffer. -/
def blockResponse : List Nat :=
  (List.range 5).flatMap (fun k => [20 + k, 0, 8] ++ List.replicate 8 0)
    ++ [25, 0, 8] ++ List.replicate 6 0

/-- C1, counterexample: decoding the spec's claimed response
`[20, 0x2a, 21, 0x01, 0x03]` (zero-padded to 64 bytes) against the example
packet does not succeed with the claimed values — the decoder skips an extra
byte after each echoed id, so the walk fails with the bad-sequence-id
error. -/
theorem C1_counterexample :
    usbhid.RxPacket.decode txExample
      ([20, 0x2a, 21, 0x01, 0x03] ++ List.replicate 59 0)
      = .err "Bad command ID" := by decide

/-- C2, counterexample: the example packet does not encode to
`[0x05, 20, 0x07, 0x00, 21, 0x09, 0x01]` followed by zero padding to 64
bytes — the length byte is `0x06` (six bytes follow it) and the produced
buffer is exactly 7 bytes long, with no padding. -/
theorem C2_counterexample :
    usbhid.TxPacket.encode txExample
        ≠ .ok (some ([0x05, 20, 0x07, 0x00, 21, 0x09, 0x01]
          ++ List.replicate 57 0)) ∧
      encodedLength (usbhid.TxPacket.encode txExample) = some 7 := by decide

/-- C2, amended: the example packet encodes to exactly the 7-byte buffer
`[0x06, 20, 0x07, 0x00, 21, 0x09, 0x01]`: byte 0 is the total number of
bytes after itself up to the end of the last command (6), and no zero
padding is emitted. -/
theorem C2_encode_amended :
    usbhid.TxPacket.encode txExample
      = .ok (some [0x06, 20, 0x07, 0x00, 21, 0x09, 0x01]) := by decide

/-- C3, code bug: a batch whose encoded length is 65 bytes (> 64) is encoded
successfully into a 65-byte buffer; `TxPacket::encode` sizes its buffer to
the whole batch (`vec![0; self.len()]`), so the per-command `get_mut` space
check can never fail and no comparison against `PACKET_SIZE` happens. -/
theorem C3_oversized_encodes :
    usbhid.TxPacket.len oversizedTx = 65 ∧
      encodedLength (usbhid.TxPacket.encode oversizedTx) = some 65 := by
  decide

/-- C4, code bug: for a `Write` whose value is not encodable
(`RegisterValue::encode` returns `None`), `Command::encode` ignores the
`None`, leaves the operand byte zero, and reports success (`Some(3)`), and
the whole batch still encodes successfully. -/
theorem C4_unencodable_value_accepted :
    h110i.RegisterValue.encode (.DeviceId 0x2a) = none ∧
      usbhid.Command.encode badWrite [0, 0, 0]
        = .ok ([0x06, 0x04, 0x00], some 3) ∧
      usbhid.TxPacket.encode ⟨20, [badWrite]⟩
        = .ok (some [0x04, 20, 0x06, 0x04, 0x00]) := by decide

/-- C8, counterexample: a block-width `Read` (ProductName, width 8) encodes
to 3 bytes, not 2 — an explicit length byte (the register width) is emitted
after the opcode and register id. -/
theorem C8_counterexample :
    usbhid.Command.len
        (.Read .ProductName : usbhid.Command h110i.Register h110i.RegisterValue)
        ≠ 2 ∧
      usbhid.Command.len
        (.Read .ProductName : usbhid.Command h110i.Register h110i.RegisterValue)
        = 3 ∧
      usbhid.Command.encode
        (.Read .ProductName : usbhid.Command h110i.Register h110i.RegisterValue)
        [0, 0, 0] = .ok ([0x0b, 0x02, 0x08], some 3) := by decide

/-- C10, counterexample: a packet of six block reads whose encoded request
is 25 bytes (≤ 64), decoded against a specific 64-byte response whose
echoed ids and embedded length bytes all match, drives the read cursor past
the end of the buffer: the decode panics (out-of-bounds slice). -/
theorem C10_counterexample :
    usbhid.TxPacket.len blockTx ≤ 64 ∧ blockResponse.length = 64 ∧
      usbhid.RxPacket.decode blockTx blockResponse = .crash := by decide

/-- C7: opcode selection is total in (operation kind, register width): width
1 picks the Byte opcodes, width 2 the Word opcodes, any other width the
Block opcodes, and the six opcode byte values are as documented. -/
theorem C7_opcode_selection {R V : Type} [usbhid.Register R] (r : R) (v : V) :
    (usbhid.Register.size r = 1 →
      usbhid.Command.opcode (.Read r : usbhid.Command R V) = .ReadByte ∧
        usbhid.Command.opcode (.Write r v : usbhid.Command R V) = .WriteByte) ∧
    (usbhid.Register.size r = 2 →
      usbhid.Command.opcode (.Read r : usbhid.Command R V) = .ReadWord ∧
        usbhid.Command.opcode (.Write r v : usbhid.Command R V) = .WriteWord) ∧
    (usbhid.Register.size r ≠ 1 → usbhid.Register.size r ≠ 2 →
      usbhid.Command.opcode (.Read r : usbhid.Command R V) = .ReadBlock ∧
        usbhid.Command.opcode (.Write r v : usbhid.Command R V) = .WriteBlock) ∧
    (usbhid.Opcode.toU8 .WriteByte = 0x06 ∧ usbhid.Opcode.toU8 .ReadByte = 0x07 ∧
      usbhid.Opcode.toU8 .WriteWord = 0x08 ∧ usbhid.Opcode.toU8 .ReadWord = 0x09 ∧
      usbhid.Opcode.toU8 .WriteBlock = 0x0a ∧
      usbhid.Opcode.toU8 .ReadBlock = 0x0b) := by
  refine ⟨?_, ?_, ?_, by decide⟩
  · intro h
    constructor <;> simp [usbhid.Command.opcode, h]
  · intro h
    constructor <;> simp [usbhid.Command.opcode, h]
  · intro h1 h2
    rcases hs : usbhid.Register.size r with _ | _ | _ | m <;>
      first
        | exact absurd hs h1
        | exact absurd hs h2
        | constructor <;> simp [usbhid.Command.opcode, hs]

/-- C7 witness: the three width cases instantiated at concrete H110i
registers (DeviceId width 1, FirmwareVersion width 2, ProductName
width 8). -/
theorem C7_opcode_selection_witness :
    (usbhid.Command.opcode
        (.Read h110i.Register.DeviceId :
          usbhid.Command h110i.Register h110i.RegisterValue) = .ReadByte ∧
      usbhid.Command.opcode
        (.Write h110i.Register.DeviceId (h110i.RegisterValue.DeviceId 0) :
          usbhid.Command h110i.Register h110i.RegisterValue) = .WriteByte) ∧
    (usbhid.Command.opcode
        (.Read h110i.Register.FirmwareVersion :
          usbhid.Command h110i.Register h110i.RegisterValue) = .ReadWord ∧
      usbhid.Command.opcode
        (.Write h110i.Register.FirmwareVersion (h110i.RegisterValue.DeviceId 0) :
          usbhid.Command h110i.Register h110i.RegisterValue) = .WriteWord) ∧
    (usbhid.Command.opcode
        (.Read h110i.Register.ProductName :
          usbhid.Command h110i.Register h110i.RegisterValue) = .ReadBlock ∧
      usbhid.Command.opcode
        (.Write h110i.Register.ProductName (h110i.RegisterValue.DeviceId 0) :
          usbhid.Command h110i.Register h110i.RegisterValue) = .WriteBlock) :=
  ⟨(C7_opcode_selection h110i.Register.DeviceId
      (h110i.RegisterValue.DeviceId 0)).1 rfl,
    (C7_opcode_selection h110i.Register.FirmwareVersion
      (h110i.RegisterValue.DeviceId 0)).2.1 rfl,
    (C7_opcode_selection h110i.Register.ProductName
      (h110i.RegisterValue.DeviceId 0)).2.2.1 (by decide) (by decide)⟩

/-- C8, amended: a `Read` of width 1 or 2 encodes to exactly 2 bytes
(opcode then register id, length 2), while a block-width `Read` encodes to
exactly 3 bytes — opcode, register id, then an explicit length byte holding
the register width. -/
theorem C8_read_encoding_amended {R V : Type} [usbhid.Register R]
    [usbhid.Value R V] (r : R) :
    (usbhid.Register.size r = 1 →
      usbhid.Command.len (.Read r : usbhid.Command R V) = 2 ∧
        usbhid.Command.encode (.Read r : usbhid.Command R V) [0, 0]
          = .ok ([0x07, usbhid.Register.toU8 r], some 2)) ∧
    (usbhid.Register.size r = 2 →
      usbhid.Command.len (.Read r : usbhid.Command R V) = 2 ∧
        usbhid.Command.encode (.Read r : usbhid.Command R V) [0, 0]
          = .ok ([0x09, usbhid.Register.toU8 r], some 2)) ∧
    (usbhid.Register.size r ≠ 1 → usbhid.Register.size r ≠ 2 →
      usbhid.Command.len (.Read r : usbhid.Command R V) = 3 ∧
        usbhid.Command.encode (.Read r : usbhid.Command R V) [0, 0, 0]
          = .ok ([0x0b, usbhid.Register.toU8 r, usbhid.Register.size r % 256],
              some 3)) := by
  refine ⟨?_, ?_, ?_⟩
  · intro h
    constructor <;>
      simp [usbhid.Command.len, usbhid.Command.encode, usbhid.Command.opcode, h,
        usbhid.Command.register, setByte, usbhid.Opcode.toU8]
  · intro h
    constructor <;>
      simp [usbhid.Command.len, usbhid.Command.encode, usbhid.Command.opcode, h,
        usbhid.Command.register, setByte, usbhid.Opcode.toU8]
  · intro h1 h2
    rcases hs : usbhid.Register.size r with _ | _ | _ | m <;>
      first
        | exact absurd hs h1
        | exact absurd hs h2
        | constructor <;>
            simp [usbhid.Command.len, usbhid.Command.encode,
              usbhid.Command.opcode, hs, usbhid.Command.register, setByte,
              usbhid.Opcode.toU8]

/-- C8 amended witness: the width-1, width-2 and block cases at concrete
H110i registers. -/
theorem C8_read_encoding_amended_witness :
    (usbhid.Command.encode
        (.Read h110i.Register.DeviceId :
          usbhid.Command h110i.Register h110i.RegisterValue) [0, 0]
        = .ok ([0x07, 0x00], some 2)) ∧
    (usbhid.Command.encode
        (.Read h110i.Register.FirmwareVersion :
          usbhid.Command h110i.Register h110i.RegisterValue) [0, 0]
        = .ok ([0x09, 0x01], some 2)) ∧
    (usbhid.Command.encode
        (.Read h110i.Register.ProductName :
          usbhid.Command h110i.Register h110i.RegisterValue) [0, 0, 0]
        = .ok ([0x0b, 0x02, 0x08], some 3)) :=
  ⟨((@C8_read_encoding_amended h110i.Register h110i.RegisterValue _ _
        h110i.Register.DeviceId).1 rfl).2,
    ((@C8_read_encoding_amended h110i.Register h110i.RegisterValue _ _
        h110i.Register.FirmwareVersion).2.1 rfl).2,
    ((@C8_read_encoding_amended h110i.Register h110i.RegisterValue _ _
        h110i.Register.ProductName).2.2 (by decide) (by decide)).2⟩

/-- The 64-byte stale first response used in the C5 witness: its first byte
(0) does not match the expected first sequence id. -/
def staleBuf : List Nat := List.replicate 64 0

/-- The 64-byte good response used in the C5 witness. -/
def goodBuf : List Nat :=
  [20, 0, 0x2a, 21, 0, 0x01, 0x03] ++ List.replicate 57 0

/-- Read oracle for the C5 witness: the first read returns a stale report,
every later read returns the good one. -/
def retryReads : Nat → List Nat :=
  fun k => if k = 0 then staleBuf else goodBuf

/-- C5: one exchange writes the request exactly once and reads at most three
times; after each of the first two reads the first response byte is compared
with `encoded[1]` (the first sequence id written) and reading stops on a
match; the buffer of the last read performed is handed to `RxPacket::decode`
unconditionally — there is no separate retry-exhaustion error and no
re-write. -/
theorem C5_retry_loop {R V : Type} [usbhid.Register R] [usbhid.Value R V]
    (tx : usbhid.TxPacket R V) (readFn : Nat → List Nat)
    (enc : List Nat) (want b0 b1 : Nat)
    (henc : usbhid.TxPacket.encode tx = .ok (some enc))
    (hw : enc.get? 1 = some want)
    (h0 : (readFn 0).get? 0 = some b0)
    (h1 : (readFn 1).get? 0 = some b1) :
    backends.write_packet tx readFn =
      .ok ⟨1,
        if b0 = want then 1 else if b1 = want then 2 else 3,
        if b0 = want then readFn 0 else if b1 = want then readFn 1 else readFn 2,
        usbhid.RxPacket.decode tx
          (if b0 = want then readFn 0
           else if b1 = want then readFn 1 else readFn 2)⟩ := by
  unfold backends.write_packet
  rw [henc]
  simp only [hw, h0, h1]
  by_cases e0 : b0 = want
  · simp [e0]
  · by_cases e1 : b1 = want
    · simp [e0, e1]
    · simp [e0, e1]

/-- C5 witness: the example packet against a stale first read (first byte 0)
followed by a good read (first byte 20): one write, two reads, and the
second buffer is decoded. -/
theorem C5_retry_loop_witness :
    backends.write_packet txExample retryReads =
      .ok ⟨1, 2, goodBuf, usbhid.RxPacket.decode txExample goodBuf⟩ := by
  have h := C5_retry_loop txExample retryReads
    [0x06, 20, 0x07, 0x00, 21, 0x09, 0x01] 20 0 20
    (by decide) (by decide) (by decide) (by decide)
  simpa using h

/-! Buffer-manipulation lemmas used by the encode-side proofs. -/

lemma setByte_length {buf : List Nat} {i v : Nat} {out : List Nat}
    (h : setByte buf i v = some out) : out.length = buf.length := by
  unfold setByte at h
  split at h
  · cases h; simp
  · cases h

lemma setByte_lt {buf : List Nat} {i v : Nat} {out : List Nat}
    (h : setByte buf i v = some out) : i < buf.length := by
  unfold setByte at h
  split at h
  · assumption
  · cases h

lemma setByte_get_self {buf : List Nat} {i v : Nat} {out : List Nat}
    (h : setByte buf i v = some out) : out.get? i = some v := by
  unfold setByte at h
  split at h
  · cases h
    exact List.get?_set_eq_of_lt v (by assumption)
  · cases h

lemma setByte_get_ne {buf : List Nat} {i v : Nat} {out : List Nat} {j : Nat}
    (h : setByte buf i v = some out) (hj : j ≠ i) :
    out.get? j = buf.get? j := by
  unfold setByte at h
  split at h
  · cases h
    exact List.get?_set_ne v buf (fun e => hj e.symm)
  · cases h

lemma splice_length {buf : List Nat} {lo : Nat} {bs : List Nat}
    (h : lo + bs.length ≤ buf.length) :
    (splice buf lo bs).length = buf.length := by
  simp only [splice, List.length_append, List.length_take, List.length_drop]
  omega

lemma splice_get_lt {buf : List Nat} {lo : Nat} {bs : List Nat} {j : Nat}
    (hj : j < lo) (hb : lo ≤ buf.length) :
    (splice buf lo bs).get? j = buf.get? j := by
  unfold splice
  rw [List.get?_append (by simp; omega), List.get?_append (by simp; omega),
    List.get?_take hj]

lemma sliceList_length {buf : List Nat} {lo hi : Nat} (hlo : lo ≤ hi)
    (hhi : hi ≤ buf.length) : (sliceList buf lo hi).length = hi - lo := by
  simp only [sliceList, List.length_take, List.length_drop]
  omega

lemma writeEnc_length {buf : List Nat} {lo hi : Nat} {enc : Option (List Nat)}
    {out : List Nat} (h : usbhid.writeEnc buf lo hi enc = some out) :
    out.length = buf.length := by
  unfold usbhid.writeEnc at h
  split at h
  next hrange =>
    split at h
    · cases h
      rfl
    next bs =>
      split at h
      next hfit =>
        cases h
        exact splice_length (by omega)
      · cases h
  · cases h

/-- A successful `Command::encode` fills exactly its slice: the returned
bytes have the slice's length. -/
lemma Command.encode_length {R V : Type} [usbhid.Register R]
    [usbhid.Value R V] {c : usbhid.Command R V} {buf : List Nat}
    {bytes : List Nat} {ret : Option Nat}
    (h : usbhid.Command.encode c buf = .ok (bytes, ret)) :
    bytes.length = buf.length := by
  unfold usbhid.Command.encode at h
  split at h
  · cases h
  next b0 hb0 =>
    split at h
    · cases h
    next b1 hb1 =>
      have l0 := setByte_length hb0
      have l1 := setByte_length hb1
      split at h
      next register =>
        split at h
        · cases h; omega
        · cases h; omega
        · split at h
          · cases h
          next b2 hb2 =>
            cases h
            have l2 := setByte_length hb2
            omega
        · cases h; omega
      next register value =>
        split at h
        · split at h
          · cases h
          next b2 hb2 =>
            cases h
            have l2 := writeEnc_length hb2
            omega
        · split at h
          · cases h
          next b2 hb2 =>
            cases h
            have l2 := writeEnc_length hb2
            omega
        · split at h
          · cases h
          next b2 hb2 =>
            split at h
            · cases h
            next b3 hb3 =>
              cases h
              have l2 := setByte_length hb2
              have l3 := writeEnc_length hb3
              omega
        · cases h; omega

/-- Cumulative offset (relative to the loop's starting cursor) of the `k`-th
command's sequence-id byte inside an encoded packet. -/
def relOff {R V : Type} [usbhid.Register R] [usbhid.Value R V] :
    List (usbhid.Command R V) → Nat → Nat
  | _, 0 => 0
  | [], _ + 1 => 0
  | c :: rest, k + 1 => (usbhid.Command.len c + 1) + relOff rest k

/-- Invariant of the `TxPacket::encode` loop: a successful run preserves the
buffer's length, never touches bytes before the starting cursor, and leaves
the `k`-th command's sequence-id byte equal to the starting id plus `k`
(wrapping mod 256 after the first increment). -/
lemma encodeLoop_ids {R V : Type} [usbhid.Register R] [usbhid.Value R V] :
    ∀ (cs : List (usbhid.Command R V)) (buf : List Nat) (i cid : Nat)
      (out : List Nat),
      usbhid.encodeLoop cs buf i cid = .ok (some out) →
      out.length = buf.length ∧
        (∀ j, j < i → out.get? j = buf.get? j) ∧
        (∀ k, k < cs.length →
          out.get? (i + relOff cs k)
            = some (if k = 0 then cid else (cid + k) % 256)) := by
  intro cs
  induction cs with
  | nil =>
    intro buf i cid out h
    unfold usbhid.encodeLoop at h
    cases h
    exact ⟨rfl, fun j _ => rfl, fun k hk => by simp at hk⟩
  | cons c rest ih =>
    intro buf i cid out h
    unfold usbhid.encodeLoop at h
    split at h
    · cases h
    next buf1 hsb =>
      split at h
      case isFalse => cases h
      case isTrue hcond =>
        split at h
        · cases h
        · cases h
        next bytes ret henc =>
          obtain ⟨hlen, hpre, hids⟩ :=
            ih (splice buf1 (i + 1) bytes) (i + 1 + c.len) ((cid + 1) % 256)
              out h
          have hb1len : buf1.length = buf.length := setByte_length hsb
          have hblen : bytes.length = usbhid.Command.len c := by
            have := Command.encode_length henc
            rw [this, sliceList_length (by omega) hcond]
            omega
          have hsplen : i + 1 + bytes.length ≤ buf1.length := by omega
          have hsp : (splice buf1 (i + 1) bytes).length = buf1.length :=
            splice_length hsplen
          refine ⟨by omega, ?_, ?_⟩
          · intro j hj
            rw [hpre j (by omega), splice_get_lt (by omega) (by omega),
              setByte_get_ne hsb (by omega)]
          · intro k hk
            match k with
            | 0 =>
              have hro : i + relOff (c :: rest) 0 = i := by simp [relOff]
              rw [hro, hpre i (by omega), splice_get_lt (by omega) (by omega),
                setByte_get_self hsb]
              simp
            | k' + 1 =>
              have hk' : k' < rest.length := by simpa using hk
              have hpos : i + relOff (c :: rest) (k' + 1)
                  = (i + 1 + c.len) + relOff rest k' := by
                simp only [relOff]; omega
              rw [hpos, hids k' hk']
              congr 1
              by_cases hk0 : k' = 0
              · simp [hk0]
              · simp only [hk0, if_false, if_neg (Nat.succ_ne_zero k')]
                rw [Nat.mod_add_mod]
                congr 1
                omega

/-- The running total `TxPacket::len` only grows along the fold. -/
lemma txLen_ge {R V : Type} [usbhid.Register R] [usbhid.Value R V] :
    ∀ (cs : List (usbhid.Command R V)) (a : Nat),
      a ≤ cs.foldl (fun sum c => sum + usbhid.Command.len c + 1) a := by
  intro cs
  induction cs with
  | nil => intro a; simp
  | cons c rest ih =>
    intro a
    calc a ≤ a + usbhid.Command.len c + 1 := by omega
      _ ≤ _ := ih _

/-- C9: when `first id + command count ≤ 255`, a successful encode gives the
`k`-th command (0-based) the sequence id `first id + k` — one increment per
command, independent of operand widths. -/
theorem C9_sequence_ids {R V : Type} [usbhid.Register R] [usbhid.Value R V]
    (cs : List (usbhid.Command R V)) (f : Nat) (buf : List Nat)
    (hf : f + cs.length ≤ 255)
    (henc : usbhid.TxPacket.encode ⟨f, cs⟩ = .ok (some buf)) :
    ∀ k, k < cs.length → buf.get? (1 + relOff cs k) = some (f + k) := by
  intro k hk
  unfold usbhid.TxPacket.encode at henc
  split at henc
  · cases henc
  next buf0 hsb =>
    obtain ⟨-, -, hids⟩ := encodeLoop_ids cs buf0 1 f buf henc
    rw [hids k hk]
    congr 1
    by_cases hk0 : k = 0
    · simp [hk0]
    · rw [if_neg hk0]
      exact Nat.mod_eq_of_lt (by omega)

/-- C9 witness: in the encoded example packet the second command's id byte
(at offset 4) is 21 = 20 + 1. -/
theorem C9_sequence_ids_witness :
    ([0x06, 20, 0x07, 0x00, 21, 0x09, 0x01] : List Nat).get? 4
      = some 21 := by
  have h := C9_sequence_ids
    ([.Read .DeviceId, .Read .FirmwareVersion] :
      List (usbhid.Command h110i.Register h110i.RegisterValue)) 20
    [0x06, 20, 0x07, 0x00, 21, 0x09, 0x01] (by decide) (by decide) 1
    (by decide)
  exact h

/-- Unfolding equation of `decodeLoop` on the empty command list. -/
lemma decodeLoop_nil {R V : Type} [usbhid.Register R] [usbhid.Value R V]
    (data : List Nat) (i cid : Nat) :
    usbhid.decodeLoop ([] : List (usbhid.Command R V)) data i cid
      = .ok ([], i, cid) := rfl

/-- Unfolding equation of `decodeLoop` on a non-empty command list. -/
lemma decodeLoop_cons {R V : Type} [usbhid.Register R] [usbhid.Value R V]
    (c : usbhid.Command R V) (rest : List (usbhid.Command R V))
    (data : List Nat) (i cid : Nat) :
    usbhid.decodeLoop (c :: rest) data i cid =
      match data.get? i with
      | none => .crash
      | some b =>
        if b ≠ cid then .err "Bad command ID"
        else
          match usbhid.decodeStep c data i with
          | .crash => .crash
          | .err e => .err e
          | .ok rx =>
            match usbhid.decodeLoop rest data (i + (rx.len + 1))
                ((cid + 1) % 256) with
            | .crash => .crash
            | .err e => .err e
            | .ok (rxs, i2, cid2) => .ok (rx :: rxs, i2, cid2) := rfl

/-- Splitting the decode loop at a list append: the second half resumes from
the first half's final cursor and expected id. -/
lemma decodeLoop_append {R V : Type} [usbhid.Register R] [usbhid.Value R V] :
    ∀ (xs ys : List (usbhid.Command R V)) (data : List Nat) (i cid : Nat),
      usbhid.decodeLoop (xs ++ ys) data i cid =
        match usbhid.decodeLoop xs data i cid with
        | .ok (rxs, i2, cid2) =>
          (match usbhid.decodeLoop ys data i2 cid2 with
            | .ok (rxs2, i3, cid3) => .ok (rxs ++ rxs2, i3, cid3)
            | .err e => .err e
            | .crash => .crash)
        | .err e => .err e
        | .crash => .crash := by
  intro xs
  induction xs with
  | nil =>
    intro ys data i cid
    simp only [List.nil_append, decodeLoop_nil]
    cases hys : usbhid.decodeLoop ys data i cid with
    | ok t =>
      rcases t with ⟨rxs2, i3, cid3⟩
      simp
    | err e => simp
    | crash => simp
  | cons c rest ih =>
    intro ys data i cid
    simp only [List.cons_append]
    rw [decodeLoop_cons, decodeLoop_cons]
    cases hd : data.get? i with
    | none => rfl
    | some b =>
      by_cases hb : b = cid
      case neg => simp [hb]
      case pos =>
        subst hb
        simp only [ne_eq, not_true_eq_false, if_false, ite_false,
          reduceIte]
        cases hstep : usbhid.decodeStep c data i with
        | crash => rfl
        | err e => rfl
        | ok rx =>
          simp only []
          rw [ih]
          cases hrest : usbhid.decodeLoop rest data
              (i + (rx.len + 1)) ((b + 1) % 256) with
          | ok t =>
            rcases t with ⟨rxs, i2, cid2⟩
            cases hys : usbhid.decodeLoop ys data i2 cid2 with
            | ok t2 =>
              rcases t2 with ⟨rxs2, i3, cid3⟩
              simp [hys]
            | err e => simp [hys]
            | crash => simp [hys]
          | err e => rfl
          | crash => rfl

/-- C6: if the decode walk reaches any command position with a response byte
at the cursor that differs from the expected sequence id, the whole decode
fails with the bad-sequence-id error (so no partial value list is ever
produced). -/
theorem C6_bad_sequence_id {R V : Type} [usbhid.Register R] [usbhid.Value R V]
    (cs1 cs2 : List (usbhid.Command R V)) (c : usbhid.Command R V)
    (data : List Nat) (f : Nat) (rxs : List (usbhid.RxCommand R V))
    (i cid b : Nat)
    (hpre : usbhid.decodeLoop cs1 data 0 f = .ok (rxs, i, cid))
    (hb : data.get? i = some b) (hne : b ≠ cid) :
    usbhid.RxPacket.decode ⟨f, cs1 ++ c :: cs2⟩ data
      = .err "Bad command ID" := by
  unfold usbhid.RxPacket.decode
  rw [decodeLoop_append, hpre]
  simp only []
  rw [decodeLoop_cons, hb]
  simp [hne, RRes.map]

/-- C6 witness: a response whose first byte (0) differs from the example
packet's starting id (20) fails the whole decode with the bad-sequence-id
error (instantiating the theorem with the empty prefix). -/
theorem C6_bad_sequence_id_witness :
    usbhid.RxPacket.decode txExample (List.replicate 64 0)
      = .err "Bad command ID" := by
  have h := C6_bad_sequence_id
    ([] : List (usbhid.Command h110i.Register h110i.RegisterValue))
    [.Read .FirmwareVersion] (.Read h110i.Register.DeviceId)
    (List.replicate 64 0) 20 [] 0 20 0 (decodeLoop_nil _ _ _) (by decide)
    (by decide)
  exact h

/-! Suffix-passing view of the decode loop, used to prove the round-trip. -/

/-- `decodeStep` re-expressed on the buffer suffix from the current
cursor. -/
def decodeStepAux {R V : Type} [usbhid.Register R] [usbhid.Value R V]
    (c : usbhid.Command R V) (d : List Nat) : RRes (usbhid.RxCommand R V) :=
  match c with
  | .Read register =>
    if 2 ≤ d.length then usbhid.RxCommand.decode_read register (d.drop 2)
    else .crash
  | .Write register _ => .ok (.Write register)

/-- The decode loop re-expressed on buffer suffixes instead of an absolute
cursor. -/
def decodeAux {R V : Type} [usbhid.Register R] [usbhid.Value R V] :
    List (usbhid.Command R V) → List Nat → Nat →
      RRes (List (usbhid.RxCommand R V))
  | [], _, _ => .ok []
  | c :: rest, d, cid =>
    match d.get? 0 with
    | none => .crash
    | some b =>
      if b ≠ cid then .err "Bad command ID"
      else
        match decodeStepAux c d with
        | .crash => .crash
        | .err e => .err e
        | .ok rx =>
          match decodeAux rest (d.drop (rx.len + 1)) ((cid + 1) % 256) with
          | .crash => .crash
          | .err e => .err e
          | .ok rxs => .ok (rx :: rxs)

/-- Unfolding equation of `decodeAux` on a non-empty command list. -/
lemma decodeAux_cons {R V : Type} [usbhid.Register R] [usbhid.Value R V]
    (c : usbhid.Command R V) (rest : List (usbhid.Command R V))
    (d : List Nat) (cid : Nat) :
    decodeAux (c :: rest) d cid =
      match d.get? 0 with
      | none => .crash
      | some b =>
        if b ≠ cid then .err "Bad command ID"
        else
          match decodeStepAux c d with
          | .crash => .crash
          | .err e => .err e
          | .ok rx =>
            match decodeAux rest (d.drop (rx.len + 1)) ((cid + 1) % 256) with
            | .crash => .crash
            | .err e => .err e
            | .ok rxs => .ok (rx :: rxs) := rfl

lemma decodeStep_eq_aux {R V : Type} [usbhid.Register R] [usbhid.Value R V]
    (c : usbhid.Command R V) (data : List Nat) (i : Nat) :
    usbhid.decodeStep c data i = decodeStepAux c (data.drop i) := by
  cases c with
  | Write r v => rfl
  | Read r =>
    simp only [usbhid.decodeStep, decodeStepAux, sliceFrom?]
    by_cases h : i + 2 ≤ data.length
    · have h2 : 2 ≤ (data.drop i).length := by simp; omega
      have hdd : data.drop (i + 2) = (data.drop i).drop 2 := by
        rw [List.drop_drop]
      rw [if_pos h, if_pos h2, hdd]
    · have h2 : ¬ 2 ≤ (data.drop i).length := by simp; omega
      rw [if_neg h, if_neg h2]

/-- The absolute-cursor decode loop agrees with the suffix-passing view. -/
lemma decodeLoop_eq_aux {R V : Type} [usbhid.Register R] [usbhid.Value R V] :
    ∀ (cs : List (usbhid.Command R V)) (data : List Nat) (i cid : Nat),
      RRes.map (fun t => t.1) (usbhid.decodeLoop cs data i cid)
        = decodeAux cs (data.drop i) cid := by
  intro cs
  induction cs with
  | nil => intro data i cid; rfl
  | cons c rest ih =>
    intro data i cid
    rw [decodeLoop_cons, decodeAux_cons]
    have hg : (data.drop i).get? 0 = data.get? i := by
      rw [List.get?_drop]
      simp
    rw [hg]
    cases hd : data.get? i with
    | none => rfl
    | some b =>
      by_cases hb : b = cid
      case neg => simp [hb, RRes.map]
      case pos =>
        subst hb
        simp only [ne_eq, not_true_eq_false, reduceIte]
        rw [decodeStep_eq_aux]
        cases hstep : decodeStepAux c (data.drop i) with
        | crash => rfl
        | err e => rfl
        | ok rx =>
          simp only []
          have hdd : (data.drop i).drop (rx.len + 1)
              = data.drop (i + (rx.len + 1)) := by
            rw [List.drop_drop]
          rw [hdd, ← ih]
          cases hrest : usbhid.decodeLoop rest data (i + (rx.len + 1))
              ((b + 1) % 256) with
          | ok t =>
            rcases t with ⟨rxs, i2, cid2⟩
            simp [RRes.map]
          | err e => simp [RRes.map]
          | crash => simp [RRes.map]

/-! The corrected response layout for the round-trip: each command echoes
its sequence id followed by one padding byte (the decoder never inspects
it), then for a `Read` the payload — with a leading width byte when the
register is block-width.  The decoder's block-read slice additionally
covers one byte past the payload (the next segment's id byte, or a padding
zero at the end of the report). -/

/-- Build the response bytes for a command list from a payload list (one
payload per `Read`, consumed in order). -/
def buildRx {R V : Type} [usbhid.Register R] [usbhid.Value R V] :
    List (usbhid.Command R V) → Nat → List (List Nat) → List Nat
  | [], _, _ => []
  | .Write _ _ :: rest, cid, ps => cid :: 0 :: buildRx rest ((cid + 1) % 256) ps
  | .Read r :: rest, cid, p :: ps =>
    if usbhid.Register.size r = 1 ∨ usbhid.Register.size r = 2 then
      cid :: 0 :: (p ++ buildRx rest ((cid + 1) % 256) ps)
    else
      cid :: 0 :: usbhid.Register.size r
        :: (p ++ buildRx rest ((cid + 1) % 256) ps)
  | .Read _ :: _, _, [] => []

/-- Payload validity for the round-trip: each `Read` payload has its
register's width and decodes (through the `Value` capability) to the
corresponding expected value; for block-width registers the decoded slice
additionally contains the following byte of the response. -/
def goodPayloads {R V : Type} [usbhid.Register R] [usbhid.Value R V] :
    List (usbhid.Command R V) → Nat → List (List Nat) → List V → Prop
  | [], _, [], [] => True
  | .Write _ _ :: rest, cid, ps, vs =>
    goodPayloads rest ((cid + 1) % 256) ps vs
  | .Read r :: rest, cid, p :: ps, v :: vs =>
    p.length = usbhid.Register.size r ∧
      (if usbhid.Register.size r = 1 ∨ usbhid.Register.size r = 2 then
        @usbhid.Value.decode R V _ _ r p = RRes.ok v
      else
        @usbhid.Value.decode R V _ _ r
            (p ++ [(buildRx rest ((cid + 1) % 256) ps).headD 0])
          = RRes.ok v) ∧
      goodPayloads rest ((cid + 1) % 256) ps vs
  | _, _, _, _ => False

lemma take_one_append {tb suffix : List Nat}
    (hs : suffix.get? 0 = some 0) :
    (tb ++ suffix).take 1 = [tb.headD 0] := by
  cases tb with
  | cons x t => rfl
  | nil =>
    cases suffix with
    | nil => cases hs
    | cons s t =>
      simp only [List.get?] at hs
      cases hs
      rfl

/-- Decoding the built response yields exactly the expected values. -/
lemma decodeAux_buildRx {R V : Type} [usbhid.Register R] [usbhid.Value R V] :
    ∀ (cs : List (usbhid.Command R V)) (cid : Nat) (ps : List (List Nat))
      (vs : List V) (suffix : List Nat),
      goodPayloads cs cid ps vs →
      suffix.get? 0 = some 0 →
      ∃ rxs, decodeAux cs (buildRx cs cid ps ++ suffix) cid = .ok rxs ∧
        usbhid.read_values rxs = vs := by
  intro cs
  induction cs with
  | nil =>
    intro cid ps vs suffix hgp hs
    match ps, vs with
    | [], [] => exact ⟨[], rfl, rfl⟩
    | [], _ :: _ => exact hgp.elim
    | _ :: _, _ => exact hgp.elim
  | cons c rest ih =>
    intro cid ps vs suffix hgp hs
    cases c with
    | Write r v =>
      have hgp' : goodPayloads rest ((cid + 1) % 256) ps vs := hgp
      obtain ⟨rxs, hA, hV⟩ := ih ((cid + 1) % 256) ps vs suffix hgp' hs
      refine ⟨.Write r :: rxs, ?_, ?_⟩
      · rw [show buildRx (usbhid.Command.Write r v :: rest) cid ps ++ suffix
            = cid :: 0 :: (buildRx rest ((cid + 1) % 256) ps ++ suffix)
            from rfl]
        rw [decodeAux_cons]
        simp only [List.get?, ne_eq, not_true_eq_false, reduceIte]
        rw [show decodeStepAux (usbhid.Command.Write r v)
            (cid :: 0 :: (buildRx rest ((cid + 1) % 256) ps ++ suffix))
            = .ok (.Write r) from rfl]
        simp only [usbhid.RxCommand.len, List.drop_succ_cons, List.drop_zero]
        rw [hA]
      · simpa [usbhid.read_values] using hV
    | Read r =>
      match ps, vs with
      | [], _ => exact hgp.elim
      | _ :: _, [] => exact hgp.elim
      | p :: ps', v :: vs' =>
        obtain ⟨hplen, hdec, hgp'⟩ := hgp
        obtain ⟨rxs, hA, hV⟩ := ih ((cid + 1) % 256) ps' vs' suffix hgp' hs
        by_cases hsz : usbhid.Register.size r = 1 ∨ usbhid.Register.size r = 2
        · rw [if_pos hsz] at hdec
          refine ⟨.Read r v :: rxs, ?_, ?_⟩
          · rw [show buildRx (usbhid.Command.Read r :: rest) cid (p :: ps')
                = if usbhid.Register.size r = 1 ∨ usbhid.Register.size r = 2
                  then cid :: 0
                    :: (p ++ buildRx rest ((cid + 1) % 256) ps')
                  else cid :: 0 :: usbhid.Register.size r
                    :: (p ++ buildRx rest ((cid + 1) % 256) ps') from rfl,
              if_pos hsz]
            rw [decodeAux_cons]
            simp only [List.cons_append, List.append_assoc, List.get?,
              ne_eq, not_true_eq_false, reduceIte]
            have hstep : decodeStepAux (usbhid.Command.Read r)
                (cid :: 0 :: (p ++ (buildRx rest ((cid + 1) % 256) ps'
                  ++ suffix))) = .ok (.Read r v) := by
              simp only [decodeStepAux, List.length_cons, if_pos (by omega :
                2 ≤ (p ++ (buildRx rest ((cid + 1) % 256) ps' ++ suffix)).length + 1 + 1),
                List.drop_succ_cons, List.drop_zero]
              rcases hsz with h1 | h1
              · obtain ⟨a, rfl⟩ : ∃ a, p = [a] := by
                  rw [h1] at hplen
                  match p, hplen with
                  | [a], _ => exact ⟨a, rfl⟩
                unfold usbhid.RxCommand.decode_read
                rw [h1]
                simp only [slice?, sliceList]
                rw [if_pos (by simp)]
                simp only [List.cons_append, List.take_succ_cons,
                  List.take_zero, List.drop_zero]
                rw [hdec]
              · obtain ⟨a, b, rfl⟩ : ∃ a b, p = [a, b] := by
                  rw [h1] at hplen
                  match p, hplen with
                  | [a, b], _ => exact ⟨a, b, rfl⟩
                unfold usbhid.RxCommand.decode_read
                rw [h1]
                simp only [slice?, sliceList]
                rw [if_pos (by simp)]
                simp only [List.cons_append, List.take_succ_cons,
                  List.take_zero, List.drop_zero]
                rw [hdec]
            rw [hstep]
            simp only []
            have hlen2 : usbhid.RxCommand.len
                (.Read r v : usbhid.RxCommand R V) + 1
                = usbhid.Register.size r + 2 := by
              rcases hsz with h1 | h1 <;> simp [usbhid.RxCommand.len, h1]
            rw [hlen2]
            have hdrop : (cid :: 0 :: (p ++ (buildRx rest ((cid + 1) % 256)
                ps' ++ suffix))).drop (usbhid.Register.size r + 2)
                = buildRx rest ((cid + 1) % 256) ps' ++ suffix := by
              rw [show usbhid.Register.size r + 2
                  = usbhid.Register.size r + 1 + 1 from rfl]
              simp only [List.drop_succ_cons]
              rw [← hplen, List.drop_left]
            rw [hdrop, hA]
          · simpa [usbhid.read_values] using congrArg (List.cons v) hV
        · rw [if_neg hsz] at hdec
          push_neg at hsz
          obtain ⟨hs1, hs2⟩ := hsz
          refine ⟨.Read r v :: rxs, ?_, ?_⟩
          · rw [show buildRx (usbhid.Command.Read r :: rest) cid (p :: ps')
                = if usbhid.Register.size r = 1 ∨ usbhid.Register.size r = 2
                  then cid :: 0
                    :: (p ++ buildRx rest ((cid + 1) % 256) ps')
                  else cid :: 0 :: usbhid.Register.size r
                    :: (p ++ buildRx rest ((cid + 1) % 256) ps') from rfl,
              if_neg (by tauto)]
            rw [decodeAux_cons]
            simp only [List.cons_append, List.append_assoc, List.get?,
              ne_eq, not_true_eq_false, reduceIte]
            have hsufpos : 0 < suffix.length := by
              cases suffix with
              | nil => cases hs
              | cons s t => simp
            have hstep : decodeStepAux (usbhid.Command.Read r)
                (cid :: 0 :: usbhid.Register.size r
                  :: (p ++ (buildRx rest ((cid + 1) % 256) ps' ++ suffix)))
                = .ok (.Read r v) := by
              simp only [decodeStepAux, List.length_cons,
                if_pos (by omega : 2 ≤ (p ++ (buildRx rest ((cid + 1) % 256)
                  ps' ++ suffix)).length + 1 + 1 + 1),
                List.drop_succ_cons, List.drop_zero]
              unfold usbhid.RxCommand.decode_read
              rcases hn : usbhid.Register.size r with _ | _ | _ | m
              · have hplen0 : p.length = 0 := by omega
                match p, hplen0 with
                | [], _ =>
                  simp only [List.get?, List.nil_append, if_true]
                  simp only [slice?]
                  rw [if_pos (by
                    refine ⟨by omega, ?_⟩
                    simp
                    omega)]
                  simp only [sliceList, List.drop_succ_cons, List.drop_zero,
                    List.take_succ_cons]
                  rw [take_one_append hs]
                  simp only [List.nil_append] at hdec
                  rw [hdec]
              · exact absurd hn hs1
              · exact absurd hn hs2
              · simp only [List.get?, if_true]
                simp only [slice?]
                rw [if_pos (by
                  refine ⟨by omega, ?_⟩
                  simp
                  omega)]
                simp only [sliceList, List.drop_succ_cons, List.drop_zero]
                rw [show m + 3 + 2 - 1 = m + 3 + 1 from rfl]
                have htake : m + 3 + 1 - p.length = 1 := by omega
                rw [List.take_append_eq_append_take,
                  List.take_of_length_le (by omega), htake,
                  take_one_append hs]
                rw [hdec]
            rw [hstep]
            simp only []
            have hlen2 : usbhid.RxCommand.len
                (.Read r v : usbhid.RxCommand R V) + 1
                = usbhid.Register.size r + 3 := by
              rcases hn : usbhid.Register.size r with _ | _ | _ | m
              · simp [usbhid.RxCommand.len, hn]
              · exact absurd hn hs1
              · exact absurd hn hs2
              · simp [usbhid.RxCommand.len, hn]
            rw [hlen2]
            have hdrop : (cid :: 0 :: usbhid.Register.size r
                :: (p ++ (buildRx rest ((cid + 1) % 256) ps' ++ suffix))).drop
                  (usbhid.Register.size r + 3)
                = buildRx rest ((cid + 1) % 256) ps' ++ suffix := by
              rw [show usbhid.Register.size r + 3
                  = usbhid.Register.size r + 1 + 1 + 1 from rfl]
              simp only [List.drop_succ_cons]
              rw [← hplen, List.drop_left]
            rw [hdrop, hA]
          · simpa [usbhid.read_values] using congrArg (List.cons v) hV

/-- C1, amended: for every command list, decoding a 64-byte response built
by echoing each assigned sequence id followed by one padding byte and then
(for reads) a payload — with a leading width byte for block-width reads —
succeeds and yields exactly the payloads' decoded values in original
command order, `Write` entries omitted, provided the built response fits in
63 bytes (leaving at least one padding zero). -/
theorem C1_roundtrip_amended {R V : Type} [usbhid.Register R]
    [usbhid.Value R V] (cs : List (usbhid.Command R V)) (f : Nat)
    (ps : List (List Nat)) (vs : List V)
    (hgp : goodPayloads cs f ps vs)
    (hlen : (buildRx cs f ps).length ≤ 63) :
    RRes.map usbhid.read_values
      (usbhid.RxPacket.decode ⟨f, cs⟩
        (buildRx cs f ps
          ++ List.replicate (64 - (buildRx cs f ps).length) 0))
      = .ok vs := by
  have hsuf : (List.replicate (64 - (buildRx cs f ps).length)
      (0 : Nat)).get? 0 = some 0 := by
    rw [List.get?_eq_getElem?, List.getElem?_replicate]
    rw [if_pos (by omega)]
  obtain ⟨rxs, hA, hV⟩ := decodeAux_buildRx cs f ps vs _ hgp hsuf
  unfold usbhid.RxPacket.decode
  have heq := decodeLoop_eq_aux cs
    (buildRx cs f ps ++ List.replicate (64 - (buildRx cs f ps).length) 0)
    0 f
  rw [List.drop_zero, hA] at heq
  cases hx : usbhid.decodeLoop cs
      (buildRx cs f ps ++ List.replicate (64 - (buildRx cs f ps).length) 0)
      0 f with
  | ok t =>
    rw [hx] at heq
    simp only [RRes.map] at heq ⊢
    cases heq
    rw [hV]
  | err e =>
    rw [hx] at heq
    simp [RRes.map] at heq
  | crash =>
    rw [hx] at heq
    simp [RRes.map] at heq

/-- C1 witness: the corrected example — response
`[20, 0, 0x2a, 21, 0, 0x01, 0x03]` zero-padded to 64 bytes — decodes
against the example packet to `DeviceId = 0x2a` and the firmware version
formatted from bytes `(0x01, 0x03)`. -/
theorem C1_roundtrip_amended_witness :
    RRes.map usbhid.read_values
      (usbhid.RxPacket.decode txExample
        ([20, 0, 0x2a, 21, 0, 0x01, 0x03] ++ List.replicate 57 0))
      = .ok [h110i.RegisterValue.DeviceId 0x2a,
          h110i.RegisterValue.FirmwareVersion fwBytes] := by
  have h := C1_roundtrip_amended
    ([.Read .DeviceId, .Read .FirmwareVersion] :
      List (usbhid.Command h110i.Register h110i.RegisterValue)) 20
    [[0x2a], [0x01, 0x03]]
    [h110i.RegisterValue.DeviceId 0x2a,
      h110i.RegisterValue.FirmwareVersion fwBytes]
    (by
      refine ⟨rfl, ?_, rfl, ?_, trivial⟩ <;> decide)
    (by decide)
  exact h

/-! In-bounds analysis of the decoder for the H110i register catalog. -/

lemma get?_some_of_lt {l : List Nat} {j : Nat} (h : j < l.length) :
    ∃ a, l.get? j = some a := by
  cases hx : l.get? j with
  | none => rw [List.get?_eq_none] at hx; omega
  | some a => exact ⟨a, rfl⟩

lemma findIdx?_lt_length {p : Nat → Bool} {l : List Nat} {n : Nat}
    (h : l.findIdx? p = some n) : n < l.length :=
  (List.findIdx?_eq_some_iff_findIdx_eq.mp h).1

/-- The highest index (+1) the H110i value decoder reads in its payload
slice, per register. -/
def decodeNeed : h110i.Register → Nat
  | .DeviceId => 1
  | .FirmwareVersion => 2
  | .ProductName => 1
  | .Status => 1
  | .LedSelect => 1
  | .LedCount => 1
  | .LedMode => 1
  | .LedColor => 3
  | .LedCycleColors => 12
  | .TempSensorSelect => 1
  | .TempSensorCount => 1
  | .TempSensorValue => 2
  | .TempSensorLimit => 2
  | .FanSelect => 1
  | .FanCount => 1
  | .FanRPM => 2

lemma decodeNeed_le (r : h110i.Register) :
    decodeNeed r ≤ h110i.Register.size r + 1 ∧
      (h110i.Register.size r = 1 → decodeNeed r ≤ 1) ∧
      (h110i.Register.size r = 2 → decodeNeed r ≤ 2) := by
  cases r <;> decide

/-- The H110i value decoder never panics when its payload slice covers the
indices it reads. -/
lemma h110i_decode_no_crash (r : h110i.Register) (buf : List Nat)
    (h : decodeNeed r ≤ buf.length) :
    h110i.RegisterValue.decode r buf ≠ .crash := by
  cases r
  case ProductName =>
    have h1 : sliceFrom? buf 1 = some (buf.drop 1) := by
      unfold sliceFrom?
      rw [if_pos (by simp [decodeNeed] at h; omega)]
    simp only [h110i.RegisterValue.decode, h1]
    cases hf : (buf.drop 1).findIdx? (fun x => x = 0) with
    | none => simp
    | some n =>
      have hn : n < (buf.drop 1).length := findIdx?_lt_length hf
      simp only [List.length_drop] at hn
      have h2 : slice? buf 1 (n + 1)
          = some (sliceList buf 1 (n + 1)) := by
        unfold slice?
        rw [if_pos ⟨by omega, by omega⟩]
      simp only [h2]
      by_cases hv : h110i.utf8Valid (sliceList buf 1 (n + 1)) <;>
        simp [h110i.string_from_utf8, hv]
  case FanRPM =>
    simp only [decodeNeed] at h
    have h2 : slice? buf 0 2 = some (sliceList buf 0 2) := by
      unfold slice?
      rw [if_pos ⟨by omega, by omega⟩]
    have hl : (sliceList buf 0 2).length = 2 :=
      sliceList_length (by omega) (by omega)
    obtain ⟨a, h0⟩ := get?_some_of_lt (show 0 < (sliceList buf 0 2).length
      by omega)
    obtain ⟨b, hb1⟩ := get?_some_of_lt (show 1 < (sliceList buf 0 2).length
      by omega)
    simp only [h110i.RegisterValue.decode, h2, h0, hb1]
    simp
  case LedMode =>
    simp only [decodeNeed] at h
    obtain ⟨a0, h0⟩ := get?_some_of_lt (show 0 < buf.length by omega)
    simp only [h110i.RegisterValue.decode, h0]
    have hc : ∀ x : Nat, h110i.TempChannel.decode x ≠ .crash := by
      intro x
      unfold h110i.TempChannel.decode
      split <;> simp
    have hm : h110i.LedMode.decode a0 ≠ .crash := by
      unfold h110i.LedMode.decode
      split
      · simp
      · simp
      · simp
      · cases hx : h110i.TempChannel.decode (a0 &&& 0x0f) with
        | ok c => simp
        | err e => simp
        | crash => exact absurd hx (hc _)
      · simp
    cases hmv : h110i.LedMode.decode a0 with
    | ok m => simp
    | err e => simp
    | crash => exact absurd hmv hm
  case LedCycleColors =>
    simp only [decodeNeed] at h
    obtain ⟨a0, h0⟩ := get?_some_of_lt (show 0 < buf.length by omega)
    obtain ⟨a1, h1⟩ := get?_some_of_lt (show 1 < buf.length by omega)
    obtain ⟨a2, h2⟩ := get?_some_of_lt (show 2 < buf.length by omega)
    obtain ⟨a3, h3⟩ := get?_some_of_lt (show 3 < buf.length by omega)
    obtain ⟨a4, h4⟩ := get?_some_of_lt (show 4 < buf.length by omega)
    obtain ⟨a5, h5⟩ := get?_some_of_lt (show 5 < buf.length by omega)
    obtain ⟨a6, h6⟩ := get?_some_of_lt (show 6 < buf.length by omega)
    obtain ⟨a7, h7⟩ := get?_some_of_lt (show 7 < buf.length by omega)
    obtain ⟨a8, h8⟩ := get?_some_of_lt (show 8 < buf.length by omega)
    obtain ⟨a9, h9⟩ := get?_some_of_lt (show 9 < buf.length by omega)
    obtain ⟨a10, h10⟩ := get?_some_of_lt (show 10 < buf.length by omega)
    obtain ⟨a11, h11⟩ := get?_some_of_lt (show 11 < buf.length by omega)
    simp only [h110i.RegisterValue.decode, h0, h1, h2, h3, h4, h5, h6,
      h7, h8, h9, h10, h11]
    simp
  case LedColor =>
    simp only [decodeNeed] at h
    obtain ⟨a0, h0⟩ := get?_some_of_lt (show 0 < buf.length by omega)
    obtain ⟨a1, h1⟩ := get?_some_of_lt (show 1 < buf.length by omega)
    obtain ⟨a2, h2⟩ := get?_some_of_lt (show 2 < buf.length by omega)
    simp only [h110i.RegisterValue.decode, h0, h1, h2]
    simp
  case DeviceId =>
    simp only [decodeNeed] at h
    obtain ⟨a0, h0⟩ := get?_some_of_lt (show 0 < buf.length by omega)
    simp only [h110i.RegisterValue.decode, h0]
    simp
  case Status =>
    simp only [decodeNeed] at h
    obtain ⟨a0, h0⟩ := get?_some_of_lt (show 0 < buf.length by omega)
    simp only [h110i.RegisterValue.decode, h0]
    simp
  case LedSelect =>
    simp only [decodeNeed] at h
    obtain ⟨a0, h0⟩ := get?_some_of_lt (show 0 < buf.length by omega)
    simp only [h110i.RegisterValue.decode, h0]
    simp
  case LedCount =>
    simp only [decodeNeed] at h
    obtain ⟨a0, h0⟩ := get?_some_of_lt (show 0 < buf.length by omega)
    simp only [h110i.RegisterValue.decode, h0]
    simp
  case TempSensorSelect =>
    simp only [decodeNeed] at h
    obtain ⟨a0, h0⟩ := get?_some_of_lt (show 0 < buf.length by omega)
    simp only [h110i.RegisterValue.decode, h0]
    simp
  case TempSensorCount =>
    simp only [decodeNeed] at h
    obtain ⟨a0, h0⟩ := get?_some_of_lt (show 0 < buf.length by omega)
    simp only [h110i.RegisterValue.decode, h0]
    simp
  case FanSelect =>
    simp only [decodeNeed] at h
    obtain ⟨a0, h0⟩ := get?_some_of_lt (show 0 < buf.length by omega)
    simp only [h110i.RegisterValue.decode, h0]
    simp
  case FanCount =>
    simp only [decodeNeed] at h
    obtain ⟨a0, h0⟩ := get?_some_of_lt (show 0 < buf.length by omega)
    simp only [h110i.RegisterValue.decode, h0]
    simp
  case FirmwareVersion =>
    simp only [decodeNeed] at h
    obtain ⟨a0, h0⟩ := get?_some_of_lt (show 0 < buf.length by omega)
    obtain ⟨a1, h1⟩ := get?_some_of_lt (show 1 < buf.length by omega)
    simp only [h110i.RegisterValue.decode, h0, h1]
    simp
  case TempSensorValue =>
    simp only [decodeNeed] at h
    obtain ⟨a0, h0⟩ := get?_some_of_lt (show 0 < buf.length by omega)
    obtain ⟨a1, h1⟩ := get?_some_of_lt (show 1 < buf.length by omega)
    simp only [h110i.RegisterValue.decode, h0, h1]
    simp
  case TempSensorLimit =>
    simp only [decodeNeed] at h
    obtain ⟨a0, h0⟩ := get?_some_of_lt (show 0 < buf.length by omega)
    obtain ⟨a1, h1⟩ := get?_some_of_lt (show 1 < buf.length by omega)
    simp only [h110i.RegisterValue.decode, h0, h1]
    simp

/-- Response-side bytes one command consumes during decode (its echoed id
byte included): `rxcommand.len() + 1`. -/
def rxAdv : usbhid.Command h110i.Register h110i.RegisterValue → Nat
  | .Read r =>
    (match h110i.Register.size r with
      | 1 => 2
      | 2 => 3
      | n => n + 2) + 1
  | .Write _ _ => 2

/-- Total response-side consumption of a command list. -/
def rxNeedTotal
    (cs : List (usbhid.Command h110i.Register h110i.RegisterValue)) : Nat :=
  (cs.map rxAdv).sum

lemma rxNeedTotal_cons
    (c : usbhid.Command h110i.Register h110i.RegisterValue)
    (rest : List (usbhid.Command h110i.Register h110i.RegisterValue)) :
    rxNeedTotal (c :: rest) = rxAdv c + rxNeedTotal rest := by
  simp [rxNeedTotal]

lemma usbhid_size_h110i (r : h110i.Register) :
    usbhid.Register.size r = h110i.Register.size r := rfl

lemma usbhid_decode_h110i (r : h110i.Register) (d : List Nat) :
    @usbhid.Value.decode h110i.Register h110i.RegisterValue _ _ r d
      = h110i.RegisterValue.decode r d := rfl

/-- The decode loop performs only in-bounds accesses on a 64-byte response
when the remaining consumption fits in 63 bytes. -/
lemma decodeLoop_no_crash :
    ∀ (cs : List (usbhid.Command h110i.Register h110i.RegisterValue))
      (data : List Nat) (i cid : Nat),
      data.length = 64 → i + rxNeedTotal cs ≤ 63 →
      usbhid.decodeLoop cs data i cid ≠ .crash := by
  intro cs
  induction cs with
  | nil =>
    intro data i cid _ _
    rw [decodeLoop_nil]
    simp
  | cons c rest ih =>
    intro data i cid hdata hbound
    rw [rxNeedTotal_cons] at hbound
    have hadv2 : 2 ≤ rxAdv c := by
      cases c with
      | Write r v => simp [rxAdv]
      | Read r =>
        simp only [rxAdv]
        rcases h110i.Register.size r with _ | _ | _ | m <;> simp
    rw [decodeLoop_cons]
    obtain ⟨b, hb⟩ := get?_some_of_lt (show i < data.length by omega)
    rw [hb]
    by_cases hbc : b = cid
    case neg => simp [hbc]
    case pos =>
      subst hbc
      simp only [ne_eq, not_true_eq_false, reduceIte]
      cases c with
      | Write r v =>
        rw [show usbhid.decodeStep (usbhid.Command.Write r v) data i
            = .ok (.Write r) from rfl]
        simp only []
        rw [show usbhid.RxCommand.len
            (.Write r : usbhid.RxCommand h110i.Register h110i.RegisterValue)
            + 1 = 2 from rfl]
        have hbound' : i + 2 + rxNeedTotal rest ≤ 63 := by
          simp only [rxAdv] at hbound
          omega
        cases hrest : usbhid.decodeLoop rest data (i + 2) ((b + 1) % 256) with
        | ok t => simp
        | err e => simp
        | crash => exact absurd hrest (ih data (i + 2) _ hdata hbound')
      | Read r =>
        have hstep : usbhid.decodeStep (usbhid.Command.Read r) data i
            = (usbhid.RxCommand.decode_read r (data.drop (i + 2)) :
                RRes (usbhid.RxCommand h110i.Register h110i.RegisterValue))
            := by
          unfold usbhid.decodeStep
          rw [show sliceFrom? data (i + 2) = some (data.drop (i + 2)) from by
            unfold sliceFrom?
            rw [if_pos (by omega)]]
        rw [hstep]
        have hdlen : (data.drop (i + 2)).length = 62 - i := by
          simp only [List.length_drop, hdata]
          omega
        rcases hn : h110i.Register.size r with _ | _ | _ | m
        · -- block read of width 0
          have hadv : rxAdv (usbhid.Command.Read r) = 3 := by
            simp [rxAdv, hn]
          rw [hadv] at hbound
          unfold usbhid.RxCommand.decode_read
          rw [usbhid_size_h110i, hn]
          obtain ⟨d0, hd0⟩ := get?_some_of_lt
            (show 0 < (data.drop (i + 2)).length by omega)
          rw [hd0]
          simp only []
          by_cases he : 0 = d0
          case neg => simp [he]
          case pos =>
            rw [if_pos he]
            rw [show slice? (data.drop (i + 2)) 1 (0 + 2)
                = some (sliceList (data.drop (i + 2)) 1 (0 + 2)) from by
              unfold slice?
              rw [if_pos ⟨by omega, by omega⟩]]
            simp only []
            have hbuflen : (sliceList (data.drop (i + 2)) 1 (0 + 2)).length
                = 1 := sliceList_length (by omega) (by omega)
            have hneed := (decodeNeed_le r).1
            rw [hn] at hneed
            have hnc := h110i_decode_no_crash r
              (sliceList (data.drop (i + 2)) 1 (0 + 2)) (by omega)
            rw [usbhid_decode_h110i]
            cases hv : h110i.RegisterValue.decode r
                (sliceList (data.drop (i + 2)) 1 (0 + 2)) with
            | crash => exact absurd hv hnc
            | err e => simp
            | ok v =>
              simp only []
              rw [show usbhid.RxCommand.len
                  (.Read r v :
                    usbhid.RxCommand h110i.Register h110i.RegisterValue) + 1
                  = 3 from by simp [usbhid.RxCommand.len, usbhid_size_h110i, hn]]
              cases hrest : usbhid.decodeLoop rest data (i + 3)
                  ((b + 1) % 256) with
              | ok t => simp
              | err e => simp
              | crash =>
                exact absurd hrest (ih data (i + 3) _ hdata (by omega))
        · -- width 1
          have hadv : rxAdv (usbhid.Command.Read r) = 3 := by
            simp [rxAdv, hn]
          rw [hadv] at hbound
          unfold usbhid.RxCommand.decode_read
          rw [usbhid_size_h110i, hn]
          rw [show slice? (data.drop (i + 2)) 0 1
              = some (sliceList (data.drop (i + 2)) 0 1) from by
            unfold slice?
            rw [if_pos ⟨by omega, by omega⟩]]
          simp only []
          have hbuflen : (sliceList (data.drop (i + 2)) 0 1).length = 1 :=
            sliceList_length (by omega) (by omega)
          have hneed := (decodeNeed_le r).2.1 hn
          have hnc := h110i_decode_no_crash r
            (sliceList (data.drop (i + 2)) 0 1) (by omega)
          rw [usbhid_decode_h110i]
          cases hv : h110i.RegisterValue.decode r
              (sliceList (data.drop (i + 2)) 0 1) with
          | crash => exact absurd hv hnc
          | err e => simp
          | ok v =>
            simp only []
            rw [show usbhid.RxCommand.len
                (.Read r v :
                  usbhid.RxCommand h110i.Register h110i.RegisterValue) + 1
                = 3 from by simp [usbhid.RxCommand.len, usbhid_size_h110i, hn]]
            cases hrest : usbhid.decodeLoop rest data (i + 3)
                ((b + 1) % 256) with
            | ok t => simp
            | err e => simp
            | crash =>
              exact absurd hrest (ih data (i + 3) _ hdata (by omega))
        · -- width 2
          have hadv : rxAdv (usbhid.Command.Read r) = 4 := by
            simp [rxAdv, hn]
          rw [hadv] at hbound
          unfold usbhid.RxCommand.decode_read
          rw [usbhid_size_h110i, hn]
          rw [show slice? (data.drop (i + 2)) 0 2
              = some (sliceList (data.drop (i + 2)) 0 2) from by
            unfold slice?
            rw [if_pos ⟨by omega, by omega⟩]]
          simp only []
          have hbuflen : (sliceList (data.drop (i + 2)) 0 2).length = 2 :=
            sliceList_length (by omega) (by omega)
          have hneed := (decodeNeed_le r).2.2 hn
          have hnc := h110i_decode_no_crash r
            (sliceList (data.drop (i + 2)) 0 2) (by omega)
          rw [usbhid_decode_h110i]
          cases hv : h110i.RegisterValue.decode r
              (sliceList (data.drop (i + 2)) 0 2) with
          | crash => exact absurd hv hnc
          | err e => simp
          | ok v =>
            simp only []
            rw [show usbhid.RxCommand.len
                (.Read r v :
                  usbhid.RxCommand h110i.Register h110i.RegisterValue) + 1
                = 4 from by simp [usbhid.RxCommand.len, usbhid_size_h110i, hn]]
            cases hrest : usbhid.decodeLoop rest data (i + 4)
                ((b + 1) % 256) with
            | ok t => simp
            | err e => simp
            | crash =>
              exact absurd hrest (ih data (i + 4) _ hdata (by omega))
        · -- block read of width m + 3
          have hadv : rxAdv (usbhid.Command.Read r) = m + 6 := by
            simp [rxAdv, hn]
          rw [hadv] at hbound
          unfold usbhid.RxCommand.decode_read
          rw [usbhid_size_h110i, hn]
          obtain ⟨d0, hd0⟩ := get?_some_of_lt
            (show 0 < (data.drop (i + 2)).length by omega)
          rw [hd0]
          simp only []
          by_cases he : m + 1 + 1 + 1 = d0
          case neg => simp [he]
          case pos =>
            rw [if_pos he]
            rw [show slice? (data.drop (i + 2)) 1 (m + 1 + 1 + 1 + 2)
                = some (sliceList (data.drop (i + 2)) 1 (m + 1 + 1 + 1 + 2))
                from by
              unfold slice?
              rw [if_pos ⟨by omega, by omega⟩]]
            simp only []
            have hbuflen :
                (sliceList (data.drop (i + 2)) 1 (m + 1 + 1 + 1 + 2)).length
                = m + 4 := by
              rw [sliceList_length (by omega) (by omega)]
              omega
            have hneed := (decodeNeed_le r).1
            rw [hn] at hneed
            have hnc := h110i_decode_no_crash r
              (sliceList (data.drop (i + 2)) 1 (m + 1 + 1 + 1 + 2))
              (by omega)
            rw [usbhid_decode_h110i]
            cases hv : h110i.RegisterValue.decode r
                (sliceList (data.drop (i + 2)) 1 (m + 1 + 1 + 1 + 2)) with
            | crash => exact absurd hv hnc
            | err e => simp
            | ok v =>
              simp only []
              rw [show usbhid.RxCommand.len
                  (.Read r v :
                    usbhid.RxCommand h110i.Register h110i.RegisterValue) + 1
                  = m + 6 from by simp [usbhid.RxCommand.len, usbhid_size_h110i, hn]]
              cases hrest : usbhid.decodeLoop rest data (i + (m + 6))
                  ((b + 1) % 256) with
              | ok t => simp
              | err e => simp
              | crash =>
                exact absurd hrest
                  (ih data (i + (m + 6)) _ hdata (by omega))

/-- C10, amended: for every packet over the H110i registers whose total
response-side consumption (3 bytes per width-1 read, 4 per width-2 read,
width + 3 per block read, 2 per write) is at most 63, decoding any 64-byte
response performs only in-bounds accesses — the panic outcome is
unreachable. -/
theorem C10_inbounds_amended
    (cs : List (usbhid.Command h110i.Register h110i.RegisterValue))
    (f : Nat) (data : List Nat) (hdata : data.length = 64)
    (hneed : rxNeedTotal cs ≤ 63) :
    usbhid.RxPacket.decode ⟨f, cs⟩ data ≠ .crash := by
  unfold usbhid.RxPacket.decode
  have h := decodeLoop_no_crash cs data 0 f hdata (by omega)
  cases hx : usbhid.decodeLoop cs data 0 f with
  | ok t => simp [RRes.map]
  | err e => simp [RRes.map]
  | crash => exact absurd hx h

/-- C10 amended witness: the example packet (response consumption
3 + 4 = 7 ≤ 63) never panics on an all-zero 64-byte response. -/
theorem C10_inbounds_amended_witness :
    usbhid.RxPacket.decode txExample (List.replicate 64 0) ≠ .crash := by
  have h := C10_inbounds_amended [.Read .DeviceId, .Read .FirmwareVersion]
    20 (List.replicate 64 0) (by simp) (by decide)
  exact h

end CorsairLink
